import Mathlib

/-!
Shallow embedding of the `bip21` crate (`src/lib.rs`, `src/de.rs`, `src/ser.rs`).

Rust string slices are modelled as their UTF-8 byte sequences (`List Nat`), so that
byte-index operations of the source (`string[..8]`, `str::find`, `str::split`) and the
byte-oriented percent codec are rendered faithfully.  The address and amount parsers are
external collaborators per §1 of the specification ("out of scope, treated as external
collaborators"), so they appear as function parameters; the percent codec collaborator is
modelled concretely because the format driver's escape set is defined in `src/ser.rs`.

A Rust function that can panic is modelled with `PResult`, whose `panicked` constructor
marks an aborted call.
-/

namespace Bip21

/-- Bytes of a Rust `&str` / `String` value (UTF-8). -/
abbrev Str := List Nat

/-- UTF-8 encoding of a single character. -/
def utf8Bytes (c : Char) : List Nat :=
  let n := c.toNat
  if n < 128 then [n]
  else if n < 2048 then [192 + n / 64, 128 + n % 64]
  else if n < 65536 then [224 + n / 4096, 128 + n / 64 % 64, 128 + n % 64]
  else [240 + n / 262144, 128 + n / 4096 % 64, 128 + n / 64 % 64, 128 + n % 64]

/-- Byte sequence of a Lean string literal, used to transport literals of the source
(`"bitcoin:"`, `"amount"`, ...) into the byte-level model. -/
def strBytes (s : String) : Str := (s.data.map utf8Bytes).flatten

/-- Rust `u8::to_ascii_lowercase`. -/
def toAsciiLowercase (b : Nat) : Nat := if 65 ≤ b ∧ b ≤ 90 then b + 32 else b

/-- Rust `str::eq_ignore_ascii_case`: equal length and bytewise equality after ASCII
lowercasing. -/
def eqIgnoreAsciiCase (a b : Str) : Bool :=
  a.map toAsciiLowercase == b.map toAsciiLowercase

/-- Rust `str::find(c)` for an ASCII character `c`: byte index of its first occurrence.
For ASCII needles this byte-level scan coincides with the source's character scan,
because an ASCII byte never occurs inside a multi-byte UTF-8 character. -/
def findByte (b : Nat) : Str → Option Nat
  | [] => none
  | x :: xs => if x = b then some 0 else (findByte b xs).map (· + 1)

/-- Rust `str::split(c)` for an ASCII character: the list of pieces between separators.
Splitting the empty string yields one empty piece, exactly as in Rust. -/
def splitOnByte (b : Nat) : Str → List Str
  | [] => [[]]
  | x :: xs =>
    if x = b then [] :: splitOnByte b xs
    else
      match splitOnByte b xs with
      | [] => [[x]]
      | piece :: pieces => (x :: piece) :: pieces

/-- A UTF-8 continuation byte (`0b10xxxxxx`). -/
def isContinuationByte (b : Nat) : Bool := decide (128 ≤ b ∧ b < 192)

/-- Rust `str::is_char_boundary` at index `i`, for `i ≤ s.len()`: the index is the end of
the string or the byte at it does not continue a multi-byte character.  Rust's range
slicing `&s[..i]` panics exactly when this is false. -/
def isCharBoundary (s : Str) (i : Nat) : Bool :=
  match s.drop i with
  | [] => true
  | b :: _ => ! isContinuationByte b

/-- Value of an ASCII hex digit, as accepted by the percent codec's decoder. -/
def hexVal (b : Nat) : Option Nat :=
  if 48 ≤ b ∧ b ≤ 57 then some (b - 48)
  else if 65 ≤ b ∧ b ≤ 70 then some (b - 55)
  else if 97 ≤ b ∧ b ≤ 102 then some (b - 87)
  else none

/-- Modelled from the spec: the percent codec collaborator's decoder
(`percent_encoding_rfc3986::percent_decode_str`), which §1 and §6 of the specification
treat as an external collaborator assumed correct.  An escape sequence is `%` followed by
two hex digits; a `%` not followed by two hex digits is a decode error (the RFC 3986
strict behaviour this collaborator exists for). -/
def percentDecode : Str → Option Str
  | [] => some []
  | b :: rest =>
    if b = 37 then
      match rest with
      | h :: l :: rest2 =>
        match hexVal h, hexVal l, percentDecode rest2 with
        | some hv, some lv, some tail => some ((16 * hv + lv) :: tail)
        | _, _, _ => none
      | _ => none
    else
      (percentDecode rest).map (b :: ·)

/-- `CONTROLS` of the percent codec: C0 control bytes and DEL. -/
def CONTROLS (b : Nat) : Bool := decide (b < 32 ∨ b = 127)

/-- `ASCII_SET` from `src/ser.rs`: `CONTROLS.add(b'&').add(b'?').add(b' ').add(b'=')`. -/
def ASCII_SET (b : Nat) : Bool := CONTROLS b || b == 38 || b == 63 || b == 32 || b == 61

/-- Modelled from the spec: the percent codec collaborator's per-byte escape decision.
A correct codec (assumed by §1; §4.5 speaks of the set "in addition to the underlying
codec's default set") escapes every non-ASCII byte, the escape marker `%` itself, and
every byte of the caller-supplied set. -/
def shouldPercentEncode (b : Nat) : Bool := decide (128 ≤ b) || b == 37 || ASCII_SET b

/-- Upper-case hex digit, as produced by the percent codec's encoder. -/
def hexDigitUpper (x : Nat) : Nat := if x < 10 then 48 + x else 55 + x

/-- The three-byte escape sequence `%XY` for one byte. -/
def percentEncodeByte (b : Nat) : Str := [37, hexDigitUpper (b / 16), hexDigitUpper (b % 16)]

/-- Modelled from the spec: `percent_encoding_rfc3986::percent_encode(bytes, &ASCII_SET)`
(and `utf8_percent_encode`, which is the same map on the text's UTF-8 bytes). -/
def percentEncode : Str → Str
  | [] => []
  | b :: rest => (if shouldPercentEncode b then percentEncodeByte b else [b]) ++ percentEncode rest

/-- `ParamInner` from `src/lib.rs`: the three representations of a parameter value. -/
inductive ParamInner where
  | encodedBorrowed (encoded : Str)
  | unencodedBytes (bytes : List Nat)
  | unencodedString (s : Str)
  deriving DecidableEq

/-- `Param` from `src/lib.rs`: a lazily decodable parameter value. -/
structure Param where
  inner : ParamInner
  deriving DecidableEq

/-- `Param::decode` from `src/lib.rs`: runs the percent decoder's validation and stores
the still-encoded borrowed view on success. -/
def Param.decode (s : Str) : Option Param :=
  match percentDecode s with
  | some _ => some ⟨ParamInner.encodedBorrowed s⟩
  | none => none

/-- Logical decoded byte content of a `Param` (what `Cow::<[u8]>::from` and the byte
iterators of `src/lib.rs` produce).  For `encodedBorrowed` the decoder succeeds by the
construction invariant of `Param::decode`; the default is never reached there. -/
def Param.bytes (p : Param) : List Nat :=
  match p.inner with
  | ParamInner.encodedBorrowed e => (percentDecode e).getD []
  | ParamInner.unencodedBytes b => b
  | ParamInner.unencodedString s => s

/-- `ParamKind` from `src/de.rs`. -/
inductive ParamKind where
  | known
  | unknown
  deriving DecidableEq

/-- `core::convert::Infallible`: the uninhabited error type of `NoExtras`. -/
inductive Infallible : Type

instance : DecidableEq Infallible := fun a => nomatch a

/-- `NoExtras` from `src/lib.rs`: the empty extension payload. -/
structure NoExtras where
  deriving DecidableEq

/-- `EmptyState` from `src/lib.rs`: deserialization state for `NoExtras`. -/
structure EmptyState where
  deriving DecidableEq

/-- The address collaborator (`bitcoin::Address` parsing and display), out of scope per
§1 of the specification, abstracted as a pair of total functions; a parse failure is
`none`. -/
structure AddressCollaborator (Addr : Type) where
  parse : Str → Option Addr
  render : Addr → Str

/-- The amount collaborator (`bitcoin::Amount::from_str_in` and `display_in`, both at
`Denomination::Bitcoin`), out of scope per §1 of the specification. -/
structure AmountCollaborator (Amt : Type) where
  parse : Str → Option Amt
  render : Amt → Str

/-- The `DeserializationState` trait of `src/de.rs`, bundled with its `Default` state:
`init` is `T::DeserializationState::default()`, and `deserialize_borrowed` returns the
updated state next to the reported `ParamKind` (the source mutates `&mut self`). -/
structure DeserializationState (S V E : Type) where
  init : S
  is_param_known : S → Str → Bool
  deserialize_borrowed : S → Str → Param → Except E (S × ParamKind)
  finalize : S → Except E V

/-- `EmptyState::is_param_known` from `src/lib.rs`. -/
def EmptyState.is_param_known (_ : EmptyState) (_ : Str) : Bool := false

/-- `EmptyState::deserialize_temp` from `src/lib.rs` (also its `deserialize_borrowed`,
via the trait's default forwarding implementation in `src/de.rs`). -/
def EmptyState.deserialize_temp (s : EmptyState) (_ : Str) (_ : Param) :
    Except Infallible (EmptyState × ParamKind) :=
  Except.ok (s, ParamKind.unknown)

/-- `EmptyState::finalize` from `src/lib.rs`. -/
def EmptyState.finalize (_ : EmptyState) : Except Infallible NoExtras :=
  Except.ok ⟨⟩

/-- The `DeserializationState` instance of `NoExtras` (`impl DeserializationState for
EmptyState` in `src/lib.rs`). -/
def noExtrasState : DeserializationState EmptyState NoExtras Infallible where
  init := ⟨⟩
  is_param_known := EmptyState.is_param_known
  deserialize_borrowed := EmptyState.deserialize_temp
  finalize := EmptyState.finalize

/-- `UriErrorInner` from `src/de.rs`.  The payloads of the external collaborators'
errors (`AddressError`, `ParseAmountError`) are abstracted away; the key payloads the
claims are about are kept verbatim. -/
inductive UriErrorInner where
  | tooShort
  | invalidScheme
  | addressError
  | amountError
  | unknownRequiredParameter (parameter : Str)
  | percentDecodeFailed (parameter : Str)
  | missingEquals (parameter : Str)
  deriving DecidableEq

/-- `Error` from `src/de.rs` (the `UriError` newtype wrapper around `UriErrorInner` is
flattened). -/
inductive Error (E : Type) where
  | uri (e : UriErrorInner)
  | extras (e : E)
  deriving DecidableEq

/-- `Uri` from `src/lib.rs`. -/
structure Uri (Addr Amt Extras : Type) where
  address : Addr
  amount : Option Amt
  label : Option Param
  message : Option Param
  extras : Extras
  deriving DecidableEq

/-- Result of a Rust call that may panic: `panicked` marks an aborted call that returns
no value at all. -/
inductive PResult (α : Type) where
  | panicked
  | value (a : α)
  deriving DecidableEq

instance instDecEqExcept {ε α : Type} [DecidableEq ε] [DecidableEq α] :
    DecidableEq (Except ε α) := fun a b =>
  match a, b with
  | Except.error e, Except.error f =>
    if h : e = f then isTrue (congrArg Except.error h)
    else isFalse (fun hc => h (by injection hc))
  | Except.error _, Except.ok _ => isFalse (fun hc => Except.noConfusion hc)
  | Except.ok _, Except.error _ => isFalse (fun hc => Except.noConfusion hc)
  | Except.ok x, Except.ok y =>
    if h : x = y then isTrue (congrArg Except.ok h)
    else isFalse (fun hc => h (by injection hc))

/-- Bytes of `"bitcoin:"`, the `SCHEME` constant of `Uri::deserialize_raw`. -/
def SCHEME : Str := strBytes "bitcoin:"

/-- Bytes of the key `"amount"`. -/
def keyAmount : Str := strBytes "amount"

/-- Bytes of the key `"label"`. -/
def keyLabel : Str := strBytes "label"

/-- Bytes of the key `"message"`. -/
def keyMessage : Str := strBytes "message"

/-- Bytes of the required-field marker `"req-"`. -/
def reqPrefix : Str := strBytes "req-"

/-- One iteration of the parameter loop of `Uri::deserialize_raw` (`src/de.rs` lines
51-71), after the pair has been split at its first `=`: dispatch on the key, producing
either an error or the updated accumulator state and known fields. -/
def dispatchParam {Amt S V E : Type} (M : AmountCollaborator Amt)
    (D : DeserializationState S V E) (key value : Str) (st : S)
    (amount : Option Amt) (label message : Option Param) :
    Except (Error E) (S × Option Amt × Option Param × Option Param) :=
  if key = keyAmount then
    match M.parse value with
    | none => Except.error (Error.uri UriErrorInner.amountError)
    | some parsed => Except.ok (st, some parsed, label, message)
  else if key = keyLabel then
    match Param.decode value with
    | none => Except.error (Error.uri (UriErrorInner.percentDecodeFailed keyLabel))
    | some p => Except.ok (st, amount, some p, message)
  else if key = keyMessage then
    match Param.decode value with
    | none => Except.error (Error.uri (UriErrorInner.percentDecodeFailed keyMessage))
    | some p => Except.ok (st, amount, label, some p)
  else
    match Param.decode value with
    | none => Except.error (Error.uri (UriErrorInner.percentDecodeFailed key))
    | some p =>
      match D.deserialize_borrowed st key p with
      | Except.error e => Except.error (Error.extras e)
      | Except.ok (st2, kind) =>
        if kind == ParamKind.unknown && reqPrefix.isPrefixOf key then
          Except.error (Error.uri (UriErrorInner.unknownRequiredParameter key))
        else
          Except.ok (st2, amount, label, message)

/-- The parameter loop of `Uri::deserialize_raw` (`src/de.rs` lines 44-73): each pair is
split at its first `=` (a pair without `=` is the `MissingEquals` structure error), then
dispatched; the loop is left-to-right with immediate error propagation. -/
def processParams {Amt S V E : Type} (M : AmountCollaborator Amt)
    (D : DeserializationState S V E) :
    List Str → S → Option Amt → Option Param → Option Param →
    Except (Error E) (S × Option Amt × Option Param × Option Param)
  | [], st, amount, label, message => Except.ok (st, amount, label, message)
  | param :: rest, st, amount, label, message =>
    match findByte 61 param with
    | none => Except.error (Error.uri (UriErrorInner.missingEquals param))
    | some pos =>
      match dispatchParam M D (param.take pos) (param.drop (pos + 1)) st amount label message with
      | Except.error e => Except.error e
      | Except.ok (st2, amount2, label2, message2) =>
        processParams M D rest st2 amount2 label2 message2

/-- Body of `Uri::deserialize_raw` after the scheme prefix has been checked and removed
(`src/de.rs` lines 34-82): split at the first `?` into address and optional parameter
segment, parse the address, run the parameter loop, finalize the extras. -/
def deserializeBody {Addr Amt S V E : Type} (A : AddressCollaborator Addr)
    (M : AmountCollaborator Amt) (D : DeserializationState S V E) (string : Str) :
    Except (Error E) (Uri Addr Amt V) :=
  let split :=
    match findByte 63 string with
    | some pos => (string.take pos, some (string.drop (pos + 1)))
    | none => (string, none)
  match A.parse split.1 with
  | none => Except.error (Error.uri UriErrorInner.addressError)
  | some address =>
    let looped :=
      match split.2 with
      | none => Except.ok (D.init, none, none, none)
      | some params => processParams M D (splitOnByte 38 params) D.init none none none
    match looped with
    | Except.error e => Except.error e
    | Except.ok (st, amount, label, message) =>
      match D.finalize st with
      | Except.error e => Except.error (Error.extras e)
      | Except.ok extras => Except.ok ⟨address, amount, label, message, extras⟩

/-- `Uri::deserialize_raw` from `src/de.rs`: length check, byte slice at `SCHEME.len()`
(which panics when byte 8 is not a character boundary, exactly as Rust range slicing of
`str` does), case-insensitive scheme comparison, then the body. -/
def deserialize_raw {Addr Amt S V E : Type} (A : AddressCollaborator Addr)
    (M : AmountCollaborator Amt) (D : DeserializationState S V E) (string : Str) :
    PResult (Except (Error E) (Uri Addr Amt V)) :=
  if string.length < SCHEME.length then
    PResult.value (Except.error (Error.uri UriErrorInner.tooShort))
  else if isCharBoundary string SCHEME.length then
    if eqIgnoreAsciiCase (string.take SCHEME.length) SCHEME then
      PResult.value (deserializeBody A M D (string.drop SCHEME.length))
    else
      PResult.value (Except.error (Error.uri UriErrorInner.invalidScheme))
  else
    PResult.panicked

/-- The `SerializeParams` trait of `src/ser.rs`: an ordered finite sequence of rendered
`(key, value)` pairs (both sides already rendered to text by their `Display`
implementations). -/
structure SerializeParameters (Extras : Type) where
  serialize_params : Extras → List (Str × Str)

/-- The `SerializeParams` implementation of `NoExtras` (`src/lib.rs`): the empty
iterator. -/
def noExtrasSer : SerializeParameters NoExtras where
  serialize_params := fun _ => []

/-- `DisplayParam` from `src/ser.rs`: a `Param` is displayed by percent-encoding its
decoded byte content with `ASCII_SET` (all three representations reduce to this). -/
def DisplayParam (p : Param) : Str := percentEncode p.bytes

/-- `DisplayEncoder` from `src/ser.rs`: percent-encodes the bytes written by an inner
`Display` implementation. -/
def DisplayEncoder (rendered : Str) : Str := percentEncode rendered

/-- `write_param` from `src/ser.rs`: the key is written through `EqSignChecker`, which
panics when the key contains `=`; the first parameter is preceded by `?`, later ones by
`&`; the value is written after `=` unchecked. -/
def write_param (key value : Str) (no_params : Bool) : PResult Str :=
  if key.contains 61 then
    PResult.panicked
  else
    PResult.value ((if no_params then 63 :: key else 38 :: key) ++ 61 :: value)

/-- Sequential `write_param` calls of the `Display` implementation, threading the
`no_params` flag, with a panic aborting the whole write. -/
def writePairs : List (Str × Str) → Bool → PResult Str
  | [], _ => PResult.value []
  | (k, v) :: rest, no_params =>
    match write_param k v no_params with
    | PResult.panicked => PResult.panicked
    | PResult.value s =>
      match writePairs rest false with
      | PResult.panicked => PResult.panicked
      | PResult.value t => PResult.value (s ++ t)

/-- The ordered pair sequence written by `impl Display for Uri` (`src/ser.rs` lines
131-140): `amount` (rendered by the amount collaborator, then percent-encoded by
`DisplayEncoder`), `label` and `message` (via `DisplayParam`), then the extension
sequence (values percent-encoded by `DisplayEncoder`). -/
def uriPairs {Addr Amt Extras : Type} (M : AmountCollaborator Amt)
    (ser : SerializeParameters Extras) (u : Uri Addr Amt Extras) : List (Str × Str) :=
  (match u.amount with
   | some amt => [(keyAmount, DisplayEncoder (M.render amt))]
   | none => []) ++
  (match u.label with
   | some p => [(keyLabel, DisplayParam p)]
   | none => []) ++
  (match u.message with
   | some p => [(keyMessage, DisplayParam p)]
   | none => []) ++
  (ser.serialize_params u.extras).map (fun kv => (kv.1, DisplayEncoder kv.2))

/-- `impl Display for Uri` from `src/ser.rs` (normal, non-alternate form): scheme and
address, then the parameter pairs; a key containing `=` makes the whole write panic. -/
def formatUri {Addr Amt Extras : Type} (A : AddressCollaborator Addr)
    (M : AmountCollaborator Amt) (ser : SerializeParameters Extras)
    (u : Uri Addr Amt Extras) : PResult Str :=
  match writePairs (uriPairs M ser u) true with
  | PResult.panicked => PResult.panicked
  | PResult.value ps => PResult.value (strBytes "bitcoin:" ++ A.render u.address ++ ps)

/-- Rendered form `key = value` of one pair, as it appears between separators in the
formatted parameter segment. -/
def pairStr (kv : Str × Str) : Str := kv.1 ++ 61 :: kv.2

/-- The byte string produced by a successful sequence of `write_param` calls (the value
of `writePairs` when no key contains `=`). -/
def joinPairs : List (Str × Str) → Bool → Str
  | [], _ => []
  | (k, v) :: rest, first => (if first then 63 :: k else 38 :: k) ++ 61 :: v ++ joinPairs rest false

/-- Stated from the specification's words for §4.2 ("overwrites any previous value for
that key - last-write-wins, matching iteration order"): the value of the last pair of
the split parameter list whose key equals `key`. -/
def lastValueOfKey (key : Str) : List Str → Option Str
  | [] => none
  | p :: rest =>
    match lastValueOfKey key rest with
    | some v => some v
    | none =>
      match findByte 61 p with
      | some pos => if p.take pos = key then some (p.drop (pos + 1)) else none
      | none => none

/-- Toy address collaborator used by concrete witnesses: the only valid address is the
single byte `a`, parsed to the value `0`. -/
def toyAddr : AddressCollaborator Nat where
  parse := fun s => if s = [97] then some 0 else none
  render := fun _ => [97]

/-- Toy amount collaborator used by concrete witnesses: `"1" ↦ 1`, `"2" ↦ 2`. -/
def toyAmount : AmountCollaborator Nat where
  parse := fun s => if s = [49] then some 1 else if s = [50] then some 2 else none
  render := fun n => if n = 1 then [49] else [50]

/-- Toy extension serializer used by concrete witnesses: it emits the single pair
`a=b → 1`, whose key contains the byte `=` (61), violating the serialization
contract. -/
def toySerEq : SerializeParameters NoExtras where
  serialize_params := fun _ => [([97, 61, 98], [49])]

/-! ### Byte values of the literals of the source -/

/-- Bytes of `"bitcoin:"`. -/
theorem SCHEME_bytes : SCHEME = [98, 105, 116, 99, 111, 105, 110, 58] := by decide

/-- Bytes of `"amount"`. -/
theorem keyAmount_bytes : keyAmount = [97, 109, 111, 117, 110, 116] := by decide

/-- Bytes of `"label"`. -/
theorem keyLabel_bytes : keyLabel = [108, 97, 98, 101, 108] := by decide

/-- Bytes of `"message"`. -/
theorem keyMessage_bytes : keyMessage = [109, 101, 115, 115, 97, 103, 101] := by decide

/-- Bytes of `"req-"`. -/
theorem reqPrefix_bytes : reqPrefix = [114, 101, 113, 45] := by decide

/-! ### Lemmas on the byte-string primitives -/

theorem findByte_of_not_mem {b : Nat} {s : Str} (h : b ∉ s) : findByte b s = none := by
  induction s with
  | nil => rfl
  | cons x xs ih =>
    have hx : x ≠ b := fun e => h (e ▸ List.mem_cons_self x xs)
    rw [findByte, if_neg hx, ih (fun hm => h (List.mem_cons_of_mem _ hm))]
    rfl

theorem findByte_append_self (xs ys : Str) (b : Nat) (h : b ∉ xs) :
    findByte b (xs ++ b :: ys) = some xs.length := by
  induction xs with
  | nil => simp [findByte]
  | cons x xs ih =>
    have hx : x ≠ b := fun e => h (e ▸ List.mem_cons_self x xs)
    rw [List.cons_append, findByte, if_neg hx,
      ih (fun hm => h (List.mem_cons_of_mem _ hm))]
    rfl

theorem drop_len_cons (xs ys : Str) (y : Nat) :
    (xs ++ y :: ys).drop (xs.length + 1) = ys := by
  induction xs with
  | nil => rfl
  | cons x xs ih =>
    rw [List.cons_append, List.length_cons]
    exact ih

theorem splitOnByte_of_not_mem {b : Nat} {s : Str} (h : b ∉ s) : splitOnByte b s = [s] := by
  induction s with
  | nil => rfl
  | cons x xs ih =>
    have hx : x ≠ b := fun e => h (e ▸ List.mem_cons_self x xs)
    rw [splitOnByte, if_neg hx, ih (fun hm => h (List.mem_cons_of_mem _ hm))]

theorem splitOnByte_append_cons {b : Nat} {s : Str} (t : Str) (h : b ∉ s) :
    splitOnByte b (s ++ b :: t) = s :: splitOnByte b t := by
  induction s with
  | nil => rw [List.nil_append, splitOnByte, if_pos rfl]
  | cons x xs ih =>
    have hx : x ≠ b := fun e => h (e ▸ List.mem_cons_self x xs)
    rw [List.cons_append, splitOnByte, if_neg hx,
      ih (fun hm => h (List.mem_cons_of_mem _ hm))]

/-! ### Lemmas on the percent codec -/

theorem hexVal_hexDigitUpper (x : Nat) (h : x < 16) : hexVal (hexDigitUpper x) = some x := by
  by_cases h10 : x < 10
  · have e : hexDigitUpper x = 48 + x := by simp [hexDigitUpper, h10]
    rw [e]
    unfold hexVal
    rw [if_pos (by omega)]
    congr 1
    omega
  · have e : hexDigitUpper x = 55 + x := by simp [hexDigitUpper, h10]
    rw [e]
    unfold hexVal
    rw [if_neg (by omega), if_pos (by omega)]
    congr 1
    omega

theorem hexDigitUpper_not_special (x : Nat) :
    hexDigitUpper x ≠ 38 ∧ hexDigitUpper x ≠ 61 ∧ hexDigitUpper x ≠ 63 := by
  unfold hexDigitUpper
  split <;> omega

theorem percentDecode_encodeByte {b : Nat} (hb : b < 256) (t : Str) :
    percentDecode (percentEncodeByte b ++ t) = (percentDecode t).map (b :: ·) := by
  have hdiv : b / 16 < 16 := Nat.div_lt_of_lt_mul (by omega)
  have hmod : b % 16 < 16 := Nat.mod_lt _ (by omega)
  rw [percentEncodeByte, List.cons_append, List.cons_append, List.cons_append,
    List.nil_append, percentDecode, if_pos rfl]
  rw [hexVal_hexDigitUpper _ hdiv, hexVal_hexDigitUpper _ hmod]
  cases hd : percentDecode t with
  | none => rfl
  | some tail =>
    simp only [Option.map_some']
    rw [Nat.div_add_mod]

theorem percentDecode_cons_raw {b : Nat} (hb : b ≠ 37) (t : Str) :
    percentDecode (b :: t) = (percentDecode t).map (b :: ·) := by
  cases t with
  | nil => simp [percentDecode, hb]
  | cons x xs =>
    cases xs with
    | nil => simp [percentDecode, hb]
    | cons y ys => simp [percentDecode, hb]

/-- Round trip of the percent codec on arbitrary byte content. -/
theorem percentDecode_percentEncode (s : Str) (h : ∀ b ∈ s, b < 256) :
    percentDecode (percentEncode s) = some s := by
  induction s with
  | nil => rfl
  | cons b rest ih =>
    have hb : b < 256 := h b (List.mem_cons_self b rest)
    have hr := ih (fun x hx => h x (List.mem_cons_of_mem _ hx))
    by_cases hesc : shouldPercentEncode b
    · rw [percentEncode, if_pos hesc, percentDecode_encodeByte hb, hr]
      rfl
    · have hb37 : b ≠ 37 := by
        intro e
        rw [e] at hesc
        exact hesc (by decide)
      rw [percentEncode, if_neg hesc, List.singleton_append, percentDecode_cons_raw hb37, hr]
      rfl

/-- The percent-encoded form never contains a raw `&`, `=` or `?` byte, the three bytes
the surrounding grammar splits on. -/
theorem percentEncode_not_mem {c : Nat} (hc : c = 38 ∨ c = 61 ∨ c = 63) (s : Str) :
    c ∉ percentEncode s := by
  induction s with
  | nil => simp [percentEncode]
  | cons b rest ih =>
    rw [percentEncode]
    intro hmem
    rcases List.mem_append.1 hmem with hseg | htail
    · by_cases hesc : shouldPercentEncode b
      · rw [if_pos hesc] at hseg
        simp only [percentEncodeByte, List.mem_cons, List.not_mem_nil, or_false] at hseg
        have h1 := hexDigitUpper_not_special (b / 16)
        have h2 := hexDigitUpper_not_special (b % 16)
        rcases hc with rfl | rfl | rfl <;> rcases hseg with e | e | e <;> omega
      · rw [if_neg hesc] at hseg
        simp only [List.mem_singleton] at hseg
        subst hseg
        rcases hc with rfl | rfl | rfl <;> exact hesc (by decide)
    · exact ih htail

/-! ### Lemmas on the parameter loop -/

theorem reqPrefix_key_ne {key : Str} (h : reqPrefix.isPrefixOf key = true) :
    key ≠ keyAmount ∧ key ≠ keyLabel ∧ key ≠ keyMessage := by
  rw [List.isPrefixOf_iff_prefix] at h
  obtain ⟨t, ht⟩ := h
  refine ⟨?_, ?_, ?_⟩ <;> rw [← ht] <;> intro e
  · rw [reqPrefix_bytes, keyAmount_bytes] at e
    simp at e
  · rw [reqPrefix_bytes, keyLabel_bytes] at e
    simp at e
  · rw [reqPrefix_bytes, keyMessage_bytes] at e
    simp at e

theorem processParams_append {Amt S V E : Type} (M : AmountCollaborator Amt)
    (D : DeserializationState S V E) (xs ys : List Str) (st : S) (a : Option Amt)
    (l m : Option Param) :
    processParams M D (xs ++ ys) st a l m =
      (match processParams M D xs st a l m with
       | Except.error e => Except.error e
       | Except.ok (st2, a2, l2, m2) => processParams M D ys st2 a2 l2 m2) := by
  induction xs generalizing st a l m with
  | nil => rfl
  | cons p rest ih =>
    cases hf : findByte 61 p with
    | none => simp [processParams, hf]
    | some pos =>
      cases hd : dispatchParam M D (p.take pos) (p.drop (pos + 1)) st a l m with
      | error e => simp [processParams, hf, hd]
      | ok r =>
        obtain ⟨st2, a2, l2, m2⟩ := r
        simp [processParams, hf, hd, ih]

theorem processParams_cons_pair {Amt S V E : Type} (M : AmountCollaborator Amt)
    (D : DeserializationState S V E) (k v : Str) (hk : (61 : Nat) ∉ k)
    (rest : List Str) (st : S) (a : Option Amt) (l m : Option Param) :
    processParams M D ((k ++ 61 :: v) :: rest) st a l m =
      (match dispatchParam M D k v st a l m with
       | Except.error e => Except.error e
       | Except.ok (st2, a2, l2, m2) => processParams M D rest st2 a2 l2 m2) := by
  rw [processParams, findByte_append_self _ _ _ hk]
  simp only [List.take_left, drop_len_cons]

theorem dispatchParam_amount {Amt S V E : Type} (M : AmountCollaborator Amt)
    (D : DeserializationState S V E) (v : Str) (st : S) (a : Option Amt)
    (l m : Option Param) {x : Amt} (hv : M.parse v = some x) :
    dispatchParam M D keyAmount v st a l m = Except.ok (st, some x, l, m) := by
  rw [dispatchParam, if_pos rfl, hv]

theorem dispatchParam_label {Amt S V E : Type} (M : AmountCollaborator Amt)
    (D : DeserializationState S V E) (v : Str) (st : S) (a : Option Amt)
    (l m : Option Param) {p : Param} (hv : Param.decode v = some p) :
    dispatchParam M D keyLabel v st a l m = Except.ok (st, a, some p, m) := by
  rw [dispatchParam, if_neg (by decide), if_pos rfl, hv]

theorem dispatchParam_message {Amt S V E : Type} (M : AmountCollaborator Amt)
    (D : DeserializationState S V E) (v : Str) (st : S) (a : Option Amt)
    (l m : Option Param) {p : Param} (hv : Param.decode v = some p) :
    dispatchParam M D keyMessage v st a l m = Except.ok (st, a, l, some p) := by
  rw [dispatchParam, if_neg (by decide), if_neg (by decide), if_pos rfl, hv]

theorem dispatchParam_unknown_noreq {Amt : Type} (M : AmountCollaborator Amt)
    (key v : Str) (st : EmptyState) (a : Option Amt) (l m : Option Param)
    (hka : key ≠ keyAmount) (hkl : key ≠ keyLabel) (hkm : key ≠ keyMessage)
    (hreq : reqPrefix.isPrefixOf key = false) {p : Param} (hv : Param.decode v = some p) :
    dispatchParam M noExtrasState key v st a l m = Except.ok (st, a, l, m) := by
  rw [dispatchParam, if_neg hka, if_neg hkl, if_neg hkm, hv]
  show (match noExtrasState.deserialize_borrowed st key p with
        | Except.error e => Except.error (Error.extras e)
        | Except.ok (st2, kind) =>
          if kind == ParamKind.unknown && reqPrefix.isPrefixOf key then
            Except.error (Error.uri (UriErrorInner.unknownRequiredParameter key))
          else Except.ok (st2, a, l, m)) = _
  simp [noExtrasState, EmptyState.deserialize_temp, hreq]

theorem dispatchParam_unknown_req {Amt : Type} (M : AmountCollaborator Amt)
    (key v : Str) (st : EmptyState) (a : Option Amt) (l m : Option Param)
    (hka : key ≠ keyAmount) (hkl : key ≠ keyLabel) (hkm : key ≠ keyMessage)
    (hreq : reqPrefix.isPrefixOf key = true) {p : Param} (hv : Param.decode v = some p) :
    dispatchParam M noExtrasState key v st a l m =
      Except.error (Error.uri (UriErrorInner.unknownRequiredParameter key)) := by
  rw [dispatchParam, if_neg hka, if_neg hkl, if_neg hkm, hv]
  show (match noExtrasState.deserialize_borrowed st key p with
        | Except.error e => Except.error (Error.extras e)
        | Except.ok (st2, kind) =>
          if kind == ParamKind.unknown && reqPrefix.isPrefixOf key then
            Except.error (Error.uri (UriErrorInner.unknownRequiredParameter key))
          else Except.ok (st2, a, l, m)) = _
  simp [noExtrasState, EmptyState.deserialize_temp, hreq]

theorem processParams_ne_ok_propagate {Amt S V E : Type} (M : AmountCollaborator Amt)
    (D : DeserializationState S V E) {q : Str} {rest : List Str}
    (h : ∀ st a l m r, processParams M D rest st a l m ≠ Except.ok r) :
    ∀ st a l m r, processParams M D (q :: rest) st a l m ≠ Except.ok r := by
  intro st a l m r
  cases hf : findByte 61 q with
  | none => simp [processParams, hf]
  | some pos =>
    cases hd : dispatchParam M D (q.take pos) (q.drop (pos + 1)) st a l m with
    | error e => simp [processParams, hf, hd]
    | ok r2 =>
      obtain ⟨st2, a2, l2, m2⟩ := r2
      simp only [processParams, hf, hd]
      exact h st2 a2 l2 m2 r

theorem processParams_ne_ok_of_missing_eq {Amt S V E : Type} (M : AmountCollaborator Amt)
    (D : DeserializationState S V E) {ps : List Str} {pair : Str}
    (hmem : pair ∈ ps) (hfind : findByte 61 pair = none) :
    ∀ st a l m r, processParams M D ps st a l m ≠ Except.ok r := by
  induction ps with
  | nil => cases hmem
  | cons q rest ih =>
    rcases List.mem_cons.1 hmem with rfl | hmem'
    · intro st a l m r
      simp [processParams, hfind]
    · exact processParams_ne_ok_propagate M D (ih hmem')

theorem processParams_ne_ok_of_req {Amt : Type} (M : AmountCollaborator Amt)
    {ps : List Str} {pair : Str} {pos : Nat}
    (hmem : pair ∈ ps) (hfind : findByte 61 pair = some pos)
    (hreq : reqPrefix.isPrefixOf (pair.take pos) = true) :
    ∀ st a l m r, processParams M noExtrasState ps st a l m ≠ Except.ok r := by
  induction ps with
  | nil => cases hmem
  | cons q rest ih =>
    rcases List.mem_cons.1 hmem with rfl | hmem'
    · intro st a l m r
      obtain ⟨hka, hkl, hkm⟩ := reqPrefix_key_ne hreq
      cases hv : Param.decode (pair.drop (pos + 1)) with
      | none =>
        have hd : dispatchParam M noExtrasState (pair.take pos) (pair.drop (pos + 1)) st a l m =
            Except.error (Error.uri (UriErrorInner.percentDecodeFailed (pair.take pos))) := by
          rw [dispatchParam, if_neg hka, if_neg hkl, if_neg hkm, hv]
        simp [processParams, hfind, hd]
      | some p =>
        have hd := dispatchParam_unknown_req M (pair.take pos) (pair.drop (pos + 1))
          st a l m hka hkl hkm hreq hv
        simp [processParams, hfind, hd]
    · exact processParams_ne_ok_propagate M noExtrasState (ih hmem')

/-! ### Lemmas on the shape of the parse driver -/

theorem isCharBoundary_scheme_append (rest : Str) (h : ∀ b ∈ rest.take 1, b < 128) :
    isCharBoundary (SCHEME ++ rest) SCHEME.length = true := by
  unfold isCharBoundary
  rw [List.drop_left]
  cases rest with
  | nil => rfl
  | cons b t =>
    have hb : b < 128 := h b (by simp)
    simp [isContinuationByte]
    omega

theorem deserialize_raw_scheme {Addr Amt S V E : Type} (A : AddressCollaborator Addr)
    (M : AmountCollaborator Amt) (D : DeserializationState S V E) (rest : Str)
    (hb : isCharBoundary (SCHEME ++ rest) SCHEME.length = true) :
    deserialize_raw A M D (SCHEME ++ rest) = PResult.value (deserializeBody A M D rest) := by
  rw [deserialize_raw,
    if_neg (by rw [List.length_append]; omega),
    if_pos hb, List.take_left,
    if_pos (by decide : eqIgnoreAsciiCase SCHEME SCHEME = true),
    List.drop_left]

theorem deserializeBody_split {Addr Amt S V E : Type} (A : AddressCollaborator Addr)
    (M : AmountCollaborator Amt) (D : DeserializationState S V E)
    (addrPart params : Str) (h63 : (63 : Nat) ∉ addrPart) :
    deserializeBody A M D (addrPart ++ 63 :: params) =
      (match A.parse addrPart with
       | none => Except.error (Error.uri UriErrorInner.addressError)
       | some address =>
         match processParams M D (splitOnByte 38 params) D.init none none none with
         | Except.error e => Except.error e
         | Except.ok (st, amount, label, message) =>
           match D.finalize st with
           | Except.error e => Except.error (Error.extras e)
           | Except.ok extras => Except.ok ⟨address, amount, label, message, extras⟩) := by
  simp only [deserializeBody, findByte_append_self _ _ _ h63, List.take_left, drop_len_cons]

theorem deserializeBody_noParams {Addr Amt S V E : Type} (A : AddressCollaborator Addr)
    (M : AmountCollaborator Amt) (D : DeserializationState S V E)
    (s : Str) (h63 : (63 : Nat) ∉ s) :
    deserializeBody A M D s =
      (match A.parse s with
       | none => Except.error (Error.uri UriErrorInner.addressError)
       | some address =>
         match D.finalize D.init with
         | Except.error e => Except.error (Error.extras e)
         | Except.ok extras => Except.ok ⟨address, none, none, none, extras⟩) := by
  simp only [deserializeBody, findByte_of_not_mem h63]

theorem deserialize_raw_with_params {Addr Amt S V E : Type} (A : AddressCollaborator Addr)
    (M : AmountCollaborator Amt) (D : DeserializationState S V E)
    (addrPart params : Str) (hascii : ∀ b ∈ addrPart, b < 128) :
    deserialize_raw A M D (SCHEME ++ (addrPart ++ 63 :: params)) =
      PResult.value (deserializeBody A M D (addrPart ++ 63 :: params)) := by
  apply deserialize_raw_scheme
  apply isCharBoundary_scheme_append
  cases addrPart with
  | nil =>
    intro b hb
    simp at hb
    omega
  | cons x xs =>
    intro b hb
    simp at hb
    rw [hb]
    exact hascii x (List.mem_cons_self _ _)

/-! ### Lemmas on the format driver -/

theorem writePairs_ok (l : List (Str × Str)) (first : Bool)
    (h : ∀ kv ∈ l, (61 : Nat) ∉ kv.1) :
    writePairs l first = PResult.value (joinPairs l first) := by
  induction l generalizing first with
  | nil => rfl
  | cons kv rest ih =>
    obtain ⟨k, v⟩ := kv
    have hk : (61 : Nat) ∉ k := h (k, v) (List.mem_cons_self _ _)
    rw [writePairs, write_param, if_neg (by simpa using hk),
      ih false (fun kv hkv => h kv (List.mem_cons_of_mem _ hkv)), joinPairs]

theorem joinPairs_cons_true (p : Str × Str) (rest : List (Str × Str)) :
    joinPairs (p :: rest) true = 63 :: (pairStr p ++ joinPairs rest false) := by
  obtain ⟨k, v⟩ := p
  simp [joinPairs, pairStr]

theorem splitOnByte_pairStr_join (p : Str × Str) (rest : List (Str × Str))
    (h : ∀ kv ∈ p :: rest, (38 : Nat) ∉ pairStr kv) :
    splitOnByte 38 (pairStr p ++ joinPairs rest false) = (p :: rest).map pairStr := by
  induction rest generalizing p with
  | nil =>
    have hp : (38 : Nat) ∉ pairStr p := h p (List.mem_cons_self _ _)
    simp [joinPairs, splitOnByte_of_not_mem hp]
  | cons q rest ih =>
    have hp : (38 : Nat) ∉ pairStr p := h p (List.mem_cons_self _ _)
    have hrest : ∀ kv ∈ q :: rest, (38 : Nat) ∉ pairStr kv :=
      fun kv hkv => h kv (List.mem_cons_of_mem _ hkv)
    have hj : joinPairs (q :: rest) false = 38 :: (pairStr q ++ joinPairs rest false) := by
      obtain ⟨k, v⟩ := q
      simp [joinPairs, pairStr]
    rw [hj, splitOnByte_append_cons _ hp, ih q hrest]
    simp

theorem writePairs_panics (l : List (Str × Str)) (first : Bool)
    (h : ∃ kv ∈ l, (61 : Nat) ∈ kv.1) :
    writePairs l first = PResult.panicked := by
  induction l generalizing first with
  | nil =>
    obtain ⟨kv, hkv, _⟩ := h
    cases hkv
  | cons q rest ih =>
    obtain ⟨k, v⟩ := q
    obtain ⟨kv, hkv, h61⟩ := h
    rcases List.mem_cons.1 hkv with rfl | hmem
    · rw [writePairs, write_param, if_pos (by simpa using h61)]
    · rw [writePairs, write_param]
      by_cases hk : k.contains 61 = true
      · rw [if_pos hk]
      · rw [if_neg hk, ih false ⟨kv, hmem, h61⟩]

theorem pairStr_no38 (k w : Str) (hk : (38 : Nat) ∉ k) :
    (38 : Nat) ∉ pairStr (k, percentEncode w) := by
  intro hm
  rcases List.mem_append.1 hm with h1 | h2
  · exact hk h1
  · rcases List.mem_cons.1 h2 with e | h3
    · exact absurd e (by decide)
    · exact percentEncode_not_mem (Or.inl rfl) _ h3

/-! ### Claim theorems -/

/-- C9: the built-in empty extension never fails: `EmptyState::deserialize_temp` returns
`Ok(Unknown)` for every key and value, `EmptyState::finalize` always returns the empty
`NoExtras` value, and the `Infallible` error type of `NoExtras` is uninhabited, so no
extension error value can exist for it. -/
theorem empty_state_never_fails :
    (∀ (s : EmptyState) (key : Str) (value : Param),
        EmptyState.deserialize_temp s key value = Except.ok (s, ParamKind.unknown)) ∧
    (∀ s : EmptyState, EmptyState.finalize s = Except.ok ⟨⟩) ∧
    IsEmpty Infallible :=
  ⟨fun _ _ _ => rfl, fun _ => rfl, ⟨fun e => nomatch e⟩⟩

/-- C3 (refuting evaluation): on the nine-byte input `"bitcoiné"` (bytes
`62 69 74 63 6f 69 6e c3 a9`), whose byte 8 is the UTF-8 continuation byte `0xa9` inside
the two-byte character `é`, `Uri::deserialize_raw` panics in the byte slice
`&string[..SCHEME.len()]` instead of returning a parse error, contradicting the claim
that parsing always returns a document or an error value. -/
theorem parse_panics_on_multibyte_boundary :
    deserialize_raw toyAddr toyAmount noExtrasState
      [98, 105, 116, 99, 111, 105, 110, 195, 169] = PResult.panicked := by decide

/-- C10: an input consisting of the scheme, a valid address and a trailing `?` with an
empty parameter segment parses as a single empty pair without `=`, so parsing fails with
the missing-separator error naming the empty string. -/
theorem trailing_question_mark_missing_equals {Addr Amt : Type}
    (A : AddressCollaborator Addr) (M : AmountCollaborator Amt)
    (addrPart : Str) (addr : Addr)
    (hascii : ∀ b ∈ addrPart, b < 128) (h63 : (63 : Nat) ∉ addrPart)
    (hA : A.parse addrPart = some addr) :
    deserialize_raw A M noExtrasState (SCHEME ++ (addrPart ++ [63])) =
      PResult.value (Except.error (Error.uri (UriErrorInner.missingEquals []))) := by
  have e : addrPart ++ [63] = addrPart ++ 63 :: ([] : Str) := rfl
  rw [e, deserialize_raw_with_params A M noExtrasState addrPart [] hascii,
    deserializeBody_split A M noExtrasState addrPart [] h63, hA]
  rfl

theorem trailing_question_mark_missing_equals_witness :
    deserialize_raw toyAddr toyAmount noExtrasState (SCHEME ++ ([97] ++ [63])) =
      PResult.value (Except.error (Error.uri (UriErrorInner.missingEquals []))) :=
  trailing_question_mark_missing_equals toyAddr toyAmount [97] 0
    (by decide) (by decide) (by decide)

/-- C4: if the extension's `serialize_params` sequence contains a key whose rendering
contains the byte `=`, formatting the `Uri` panics (aborts irrecoverably) instead of
returning a value, so no output containing the malformed pair is ever produced. -/
theorem format_panics_on_eq_in_key {Addr Amt Extras : Type}
    (A : AddressCollaborator Addr) (M : AmountCollaborator Amt)
    (ser : SerializeParameters Extras) (u : Uri Addr Amt Extras)
    (h : ∃ kv ∈ ser.serialize_params u.extras, (61 : Nat) ∈ kv.1) :
    formatUri A M ser u = PResult.panicked := by
  obtain ⟨kv, hkv, h61⟩ := h
  have hmem : (kv.1, DisplayEncoder kv.2) ∈ uriPairs M ser u := by
    unfold uriPairs
    refine List.mem_append.2 (Or.inr ?_)
    exact List.mem_map.2 ⟨kv, hkv, rfl⟩
  have hp : writePairs (uriPairs M ser u) true = PResult.panicked :=
    writePairs_panics _ _ ⟨(kv.1, DisplayEncoder kv.2), hmem, h61⟩
  rw [formatUri, hp]

theorem format_panics_on_eq_in_key_witness :
    formatUri toyAddr toyAmount toySerEq ⟨0, none, none, none, ⟨⟩⟩ = PResult.panicked :=
  format_panics_on_eq_in_key toyAddr toyAmount toySerEq ⟨0, none, none, none, ⟨⟩⟩
    ⟨([97, 61, 98], [49]), by decide, by decide⟩

/-- C5: percent-encoding with the format driver's escape set followed by percent-decoding
yields the original text, for any text (in particular one containing the reserved bytes
`&`, `?`, space, `=` or non-ASCII bytes); and the escape set `ASCII_SET` contains `&`,
`?`, space and `=` in addition to the codec's defaults. -/
theorem percent_roundtrip_escape_set (s : Str)
    (hbytes : ∀ b ∈ s, b < 256)
    (_hres : ∃ b ∈ s, b = 38 ∨ b = 63 ∨ b = 32 ∨ b = 61 ∨ 128 ≤ b) :
    percentDecode (percentEncode s) = some s ∧
    ASCII_SET 38 = true ∧ ASCII_SET 63 = true ∧ ASCII_SET 32 = true ∧ ASCII_SET 61 = true :=
  ⟨percentDecode_percentEncode s hbytes, rfl, rfl, rfl, rfl⟩

theorem percent_roundtrip_escape_set_witness :
    percentDecode (percentEncode [97, 38, 32, 63, 61, 195, 169]) =
      some [97, 38, 32, 63, 61, 195, 169] ∧
    ASCII_SET 38 = true ∧ ASCII_SET 63 = true ∧ ASCII_SET 32 = true ∧ ASCII_SET 61 = true :=
  percent_roundtrip_escape_set [97, 38, 32, 63, 61, 195, 169] (by decide)
    ⟨38, by decide, by decide⟩

/-- C2 (amended): under the default `NoExtras` extension, an input whose parameter
segment contains a pair with `=` whose key begins with `req-` never parses to a document;
and when the address parses, every preceding pair is processed without error, and the
offending pair's own value percent-decodes, the reported error is precisely the
unknown-required-parameter error naming that key. -/
theorem req_unknown_rejection_amended {Addr Amt : Type}
    (A : AddressCollaborator Addr) (M : AmountCollaborator Amt)
    (addrPart params pair : Str) (pos : Nat) (pre post : List Str) (addr : Addr)
    (hascii : ∀ b ∈ addrPart, b < 128)
    (h63 : (63 : Nat) ∉ addrPart)
    (hsplit : splitOnByte 38 params = pre ++ pair :: post)
    (hfind : findByte 61 pair = some pos)
    (hreq : reqPrefix.isPrefixOf (pair.take pos) = true) :
    (∀ u : Uri Addr Amt NoExtras,
        deserialize_raw A M noExtrasState (SCHEME ++ (addrPart ++ 63 :: params)) ≠
          PResult.value (Except.ok u)) ∧
    (A.parse addrPart = some addr →
      ∀ (st : EmptyState) (a : Option Amt) (l m : Option Param),
        processParams M noExtrasState pre noExtrasState.init none none none =
          Except.ok (st, a, l, m) →
        Param.decode (pair.drop (pos + 1)) ≠ none →
        deserialize_raw A M noExtrasState (SCHEME ++ (addrPart ++ 63 :: params)) =
          PResult.value (Except.error (Error.uri
            (UriErrorInner.unknownRequiredParameter (pair.take pos))))) := by
  have hmem : pair ∈ splitOnByte 38 params := by
    rw [hsplit]
    exact List.mem_append.2 (Or.inr (List.mem_cons_self _ _))
  have hne := processParams_ne_ok_of_req M hmem hfind hreq
  constructor
  · rw [deserialize_raw_with_params A M noExtrasState addrPart params hascii,
      deserializeBody_split A M noExtrasState addrPart params h63]
    intro u hc
    cases hA : A.parse addrPart with
    | none => rw [hA] at hc; simp at hc
    | some addr2 =>
      rw [hA] at hc
      cases hpb : processParams M noExtrasState (splitOnByte 38 params)
          noExtrasState.init none none none with
      | error e => rw [hpb] at hc; simp at hc
      | ok r =>
        obtain ⟨st, a, l, m⟩ := r
        exact hne _ _ _ _ _ hpb
  · intro hA st a l m hpre hdec
    obtain ⟨hka, hkl, hkm⟩ := reqPrefix_key_ne hreq
    cases hq : Param.decode (pair.drop (pos + 1)) with
    | none => exact absurd hq hdec
    | some p =>
      have hd := dispatchParam_unknown_req M (pair.take pos) (pair.drop (pos + 1))
        st a l m hka hkl hkm hreq hq
      rw [deserialize_raw_with_params A M noExtrasState addrPart params hascii,
        deserializeBody_split A M noExtrasState addrPart params h63, hA, hsplit,
        processParams_append M noExtrasState pre (pair :: post) _ _ _ _, hpre]
      simp [processParams, hfind, hd]

/-- C2 counterexample: the input `bitcoin:a?b&req-x=1` contains the pair `req-x=1`
(whose key begins with `req-` and is unknown to `NoExtras`), yet parsing reports the
missing-separator error for the earlier malformed pair `b`, not the
unknown-required-parameter error naming `req-x`. -/
theorem req_unknown_rejection_counterexample :
    deserialize_raw toyAddr toyAmount noExtrasState (strBytes "bitcoin:a?b&req-x=1") =
      PResult.value (Except.error (Error.uri (UriErrorInner.missingEquals [98]))) ∧
    deserialize_raw toyAddr toyAmount noExtrasState (strBytes "bitcoin:a?b&req-x=1") ≠
      PResult.value (Except.error (Error.uri
        (UriErrorInner.unknownRequiredParameter (strBytes "req-x")))) :=
  ⟨by decide, by decide⟩

theorem req_unknown_rejection_witness :
    deserialize_raw toyAddr toyAmount noExtrasState
        (SCHEME ++ ([97] ++ 63 :: strBytes "req-x=1")) =
      PResult.value (Except.error (Error.uri
        (UriErrorInner.unknownRequiredParameter (strBytes "req-x")))) :=
  (req_unknown_rejection_amended toyAddr toyAmount [97] (strBytes "req-x=1")
      (strBytes "req-x=1") 5 [] [] 0 (by decide) (by decide) (by decide) (by decide)
      (by decide)).2
    (by decide) ⟨⟩ none none none rfl (by decide)

/-- C8 (amended): an input whose parameter segment contains a pair with no `=` never
parses to a document; and when the address parses and every preceding pair is processed
without error, the reported error is precisely the missing-separator error carrying that
pair's text. -/
theorem missing_equals_rejection_amended {Addr Amt S V E : Type}
    (A : AddressCollaborator Addr) (M : AmountCollaborator Amt)
    (D : DeserializationState S V E)
    (addrPart params pair : Str) (pre post : List Str) (addr : Addr)
    (hascii : ∀ b ∈ addrPart, b < 128)
    (h63 : (63 : Nat) ∉ addrPart)
    (hsplit : splitOnByte 38 params = pre ++ pair :: post)
    (hfind : findByte 61 pair = none) :
    (∀ u : Uri Addr Amt V,
        deserialize_raw A M D (SCHEME ++ (addrPart ++ 63 :: params)) ≠
          PResult.value (Except.ok u)) ∧
    (A.parse addrPart = some addr →
      ∀ (st : S) (a : Option Amt) (l m : Option Param),
        processParams M D pre D.init none none none = Except.ok (st, a, l, m) →
        deserialize_raw A M D (SCHEME ++ (addrPart ++ 63 :: params)) =
          PResult.value (Except.error (Error.uri (UriErrorInner.missingEquals pair)))) := by
  have hmem : pair ∈ splitOnByte 38 params := by
    rw [hsplit]
    exact List.mem_append.2 (Or.inr (List.mem_cons_self _ _))
  have hne := processParams_ne_ok_of_missing_eq M D hmem hfind
  constructor
  · rw [deserialize_raw_with_params A M D addrPart params hascii,
      deserializeBody_split A M D addrPart params h63]
    intro u hc
    cases hA : A.parse addrPart with
    | none => rw [hA] at hc; simp at hc
    | some addr2 =>
      rw [hA] at hc
      cases hpb : processParams M D (splitOnByte 38 params) D.init none none none with
      | error e => rw [hpb] at hc; simp at hc
      | ok r =>
        obtain ⟨st, a, l, m⟩ := r
        exact hne _ _ _ _ _ hpb
  · intro hA st a l m hpre
    rw [deserialize_raw_with_params A M D addrPart params hascii,
      deserializeBody_split A M D addrPart params h63, hA, hsplit,
      processParams_append M D pre (pair :: post) _ _ _ _, hpre]
    simp [processParams, hfind]

/-- C8 counterexample: the input `bitcoin:a?label=%&foo` contains the pair `foo` with no
`=`, yet parsing reports the percent-decode error of the earlier `label` pair, not the
missing-separator error carrying `foo`. -/
theorem missing_equals_rejection_counterexample :
    deserialize_raw toyAddr toyAmount noExtrasState (strBytes "bitcoin:a?label=%&foo") =
      PResult.value (Except.error (Error.uri
        (UriErrorInner.percentDecodeFailed (strBytes "label")))) ∧
    deserialize_raw toyAddr toyAmount noExtrasState (strBytes "bitcoin:a?label=%&foo") ≠
      PResult.value (Except.error (Error.uri
        (UriErrorInner.missingEquals (strBytes "foo")))) :=
  ⟨by decide, by decide⟩

theorem missing_equals_rejection_witness :
    deserialize_raw toyAddr toyAmount noExtrasState
        (SCHEME ++ ([97] ++ 63 :: strBytes "foo")) =
      PResult.value (Except.error (Error.uri
        (UriErrorInner.missingEquals (strBytes "foo")))) :=
  (missing_equals_rejection_amended toyAddr toyAmount noExtrasState [97]
      (strBytes "foo") (strBytes "foo") [] [] 0 (by decide) (by decide) (by decide)
      (by decide)).2
    (by decide) ⟨⟩ none none none rfl

theorem processParams_all_unknown {Amt : Type} (M : AmountCollaborator Amt)
    (ps : List Str)
    (hpairs : ∀ pair ∈ ps, ∃ pos,
        findByte 61 pair = some pos ∧
        pair.take pos ≠ keyAmount ∧ pair.take pos ≠ keyLabel ∧ pair.take pos ≠ keyMessage ∧
        reqPrefix.isPrefixOf (pair.take pos) = false ∧
        Param.decode (pair.drop (pos + 1)) ≠ none) :
    ∀ (st : EmptyState) (a : Option Amt) (l m : Option Param),
      processParams M noExtrasState ps st a l m = Except.ok (st, a, l, m) := by
  induction ps with
  | nil => intro st a l m; rfl
  | cons q rest ih =>
    intro st a l m
    obtain ⟨pos, hf, hka, hkl, hkm, hreq, hdec⟩ := hpairs q (List.mem_cons_self _ _)
    cases hq : Param.decode (q.drop (pos + 1)) with
    | none => exact absurd hq hdec
    | some p =>
      have hd := dispatchParam_unknown_noreq M (q.take pos) (q.drop (pos + 1))
        st a l m hka hkl hkm hreq hq
      have hrest := ih (fun pair hm => hpairs pair (List.mem_cons_of_mem _ hm))
      simp [processParams, hf, hd, hrest]

/-- C6 (amended): under the default `NoExtras` extension, an input whose parameter
segment contains only pairs with unrecognized keys not starting with `req-` and with
validly percent-encoded values parses successfully; the pairs are ignored and the
document's amount, label and message are unaffected by them. -/
theorem unknown_nonreq_ignored_amended {Addr Amt : Type}
    (A : AddressCollaborator Addr) (M : AmountCollaborator Amt)
    (addrPart params : Str) (addr : Addr)
    (hascii : ∀ b ∈ addrPart, b < 128) (h63 : (63 : Nat) ∉ addrPart)
    (hA : A.parse addrPart = some addr)
    (hpairs : ∀ pair ∈ splitOnByte 38 params, ∃ pos,
        findByte 61 pair = some pos ∧
        pair.take pos ≠ keyAmount ∧ pair.take pos ≠ keyLabel ∧ pair.take pos ≠ keyMessage ∧
        reqPrefix.isPrefixOf (pair.take pos) = false ∧
        Param.decode (pair.drop (pos + 1)) ≠ none) :
    deserialize_raw A M noExtrasState (SCHEME ++ (addrPart ++ 63 :: params)) =
      PResult.value (Except.ok ⟨addr, none, none, none, ⟨⟩⟩) := by
  rw [deserialize_raw_with_params A M noExtrasState addrPart params hascii,
    deserializeBody_split A M noExtrasState addrPart params h63, hA,
    processParams_all_unknown M _ hpairs noExtrasState.init none none none]
  rfl

/-- C6 counterexample: the input `bitcoin:a?x=%` consists solely of a pair whose key `x`
is unrecognized and does not start with `req-`, yet parsing fails (with the
percent-decode error for key `x`) instead of succeeding. -/
theorem unknown_nonreq_ignored_counterexample :
    deserialize_raw toyAddr toyAmount noExtrasState (strBytes "bitcoin:a?x=%") =
      PResult.value (Except.error (Error.uri (UriErrorInner.percentDecodeFailed [120]))) :=
  by decide

theorem unknown_nonreq_ignored_witness :
    deserialize_raw toyAddr toyAmount noExtrasState
        (SCHEME ++ ([97] ++ 63 :: strBytes "x=1&y=2")) =
      PResult.value (Except.ok ⟨0, none, none, none, ⟨⟩⟩) := by
  refine unknown_nonreq_ignored_amended toyAddr toyAmount [97] (strBytes "x=1&y=2") 0
    (by decide) (by decide) (by decide) ?_
  intro pair hm
  have e : splitOnByte 38 (strBytes "x=1&y=2") = [[120, 61, 49], [121, 61, 50]] := by decide
  rw [e] at hm
  rcases List.mem_cons.1 hm with rfl | hm2
  · exact ⟨1, by decide, by decide, by decide, by decide, by decide, by decide⟩
  · rcases List.mem_cons.1 hm2 with rfl | hm3
    · exact ⟨1, by decide, by decide, by decide, by decide, by decide, by decide⟩
    · cases hm3

/-! ### Last-write-wins machinery for C7 -/

theorem lastValueOfKey_cons_ne (key q : Str) (rest : List Str) (pos : Nat)
    (hf : findByte 61 q = some pos) (hne : q.take pos ≠ key) :
    lastValueOfKey key (q :: rest) = lastValueOfKey key rest := by
  cases hlv : lastValueOfKey key rest with
  | some v => simp [lastValueOfKey, hlv]
  | none => simp [lastValueOfKey, hlv, hf, hne]

theorem lastValueOfKey_cons_eq (key q : Str) (rest : List Str) (pos : Nat)
    (hf : findByte 61 q = some pos) (heq : q.take pos = key) :
    lastValueOfKey key (q :: rest) =
      (match lastValueOfKey key rest with
       | some v => some v
       | none => some (q.drop (pos + 1))) := by
  cases hlv : lastValueOfKey key rest with
  | some v => simp [lastValueOfKey, hlv]
  | none => simp [lastValueOfKey, hlv, hf, heq]

theorem dispatchParam_ok_fields {Amt S V E : Type} (M : AmountCollaborator Amt)
    (D : DeserializationState S V E) (key v : Str) (st : S) (a : Option Amt)
    (l m : Option Param) (st3 : S) (a3 : Option Amt) (l3 m3 : Option Param)
    (hd : dispatchParam M D key v st a l m = Except.ok (st3, a3, l3, m3)) :
    a3 = (if key = keyAmount then M.parse v else a) ∧
    l3 = (if key = keyLabel then Param.decode v else l) ∧
    m3 = (if key = keyMessage then Param.decode v else m) := by
  unfold dispatchParam at hd
  by_cases hka : key = keyAmount
  · rw [if_pos hka] at hd
    cases hv : M.parse v with
    | none => rw [hv] at hd; simp at hd
    | some x =>
      rw [hv] at hd
      simp only [Except.ok.injEq, Prod.mk.injEq] at hd
      obtain ⟨e0, e1, e2, e3⟩ := hd
      subst e1 e2 e3
      exact ⟨by rw [if_pos hka], by rw [if_neg (by rw [hka]; decide)],
        by rw [if_neg (by rw [hka]; decide)]⟩
  · rw [if_neg hka] at hd
    by_cases hkl : key = keyLabel
    · rw [if_pos hkl] at hd
      cases hv : Param.decode v with
      | none => rw [hv] at hd; simp at hd
      | some p =>
        rw [hv] at hd
        simp only [Except.ok.injEq, Prod.mk.injEq] at hd
        obtain ⟨e0, e1, e2, e3⟩ := hd
        subst e1 e2 e3
        exact ⟨by rw [if_neg hka], by rw [if_pos hkl],
          by rw [if_neg (by rw [hkl]; decide)]⟩
    · rw [if_neg hkl] at hd
      by_cases hkm : key = keyMessage
      · rw [if_pos hkm] at hd
        cases hv : Param.decode v with
        | none => rw [hv] at hd; simp at hd
        | some p =>
          rw [hv] at hd
          simp only [Except.ok.injEq, Prod.mk.injEq] at hd
          obtain ⟨e0, e1, e2, e3⟩ := hd
          subst e1 e2 e3
          exact ⟨by rw [if_neg hka], by rw [if_neg hkl], by rw [if_pos hkm]⟩
      · rw [if_neg hkm] at hd
        cases hv : Param.decode v with
        | none => rw [hv] at hd; simp at hd
        | some p =>
          rw [hv] at hd
          have hd2 : (match D.deserialize_borrowed st key p with
              | Except.error e => Except.error (Error.extras e)
              | Except.ok (st2, kind) =>
                if kind == ParamKind.unknown && reqPrefix.isPrefixOf key then
                  Except.error (Error.uri (UriErrorInner.unknownRequiredParameter key))
                else Except.ok (st2, a, l, m)) = Except.ok (st3, a3, l3, m3) := hd
          cases hb : D.deserialize_borrowed st key p with
          | error e => rw [hb] at hd2; simp at hd2
          | ok r2 =>
            obtain ⟨stx, kind⟩ := r2
            rw [hb] at hd2
            have hd3 : (if kind == ParamKind.unknown && reqPrefix.isPrefixOf key then
                Except.error (Error.uri (UriErrorInner.unknownRequiredParameter key))
              else Except.ok (stx, a, l, m)) = Except.ok (st3, a3, l3, m3) := hd2
            by_cases hcond : (kind == ParamKind.unknown && reqPrefix.isPrefixOf key) = true
            · rw [if_pos hcond] at hd3; simp at hd3
            · rw [if_neg hcond] at hd3
              simp only [Except.ok.injEq, Prod.mk.injEq] at hd3
              obtain ⟨e0, e1, e2, e3⟩ := hd3
              subst e1 e2 e3
              exact ⟨by rw [if_neg hka], by rw [if_neg hkl], by rw [if_neg hkm]⟩

theorem lastValue_step {α : Type} (key q : Str) (rest : List Str) (pos : Nat)
    (hf : findByte 61 q = some pos) (f : Str → Option α) (x2 x3 x : Option α)
    (hx : x2 = (match lastValueOfKey key rest with | none => x3 | some v => f v))
    (hd : x3 = if q.take pos = key then f (q.drop (pos + 1)) else x) :
    x2 = (match lastValueOfKey key (q :: rest) with | none => x | some v => f v) := by
  by_cases hk : q.take pos = key
  · rw [lastValueOfKey_cons_eq key q rest pos hf hk]
    cases hlv : lastValueOfKey key rest with
    | some v => simp only [hlv] at hx ⊢; exact hx
    | none => simp only [hlv] at hx ⊢; rw [hx, hd, if_pos hk]
  · rw [lastValueOfKey_cons_ne key q rest pos hf hk]
    cases hlv : lastValueOfKey key rest with
    | some v => simp only [hlv] at hx ⊢; exact hx
    | none => simp only [hlv] at hx ⊢; rw [hx, hd, if_neg hk]

theorem processParams_lastValue {Amt S V E : Type} (M : AmountCollaborator Amt)
    (D : DeserializationState S V E) (ps : List Str) :
    ∀ (st : S) (a : Option Amt) (l m : Option Param) (st2 : S) (a2 : Option Amt)
      (l2 m2 : Option Param),
      processParams M D ps st a l m = Except.ok (st2, a2, l2, m2) →
      a2 = (match lastValueOfKey keyAmount ps with
            | none => a
            | some v => M.parse v) ∧
      l2 = (match lastValueOfKey keyLabel ps with
            | none => l
            | some v => Param.decode v) ∧
      m2 = (match lastValueOfKey keyMessage ps with
            | none => m
            | some v => Param.decode v) := by
  induction ps with
  | nil =>
    intro st a l m st2 a2 l2 m2 h
    rw [processParams] at h
    simp only [Except.ok.injEq, Prod.mk.injEq] at h
    obtain ⟨e0, e1, e2, e3⟩ := h
    subst e1 e2 e3
    exact ⟨rfl, rfl, rfl⟩
  | cons q rest ih =>
    intro st a l m st2 a2 l2 m2 h
    cases hf : findByte 61 q with
    | none => rw [processParams, hf] at h; simp at h
    | some pos =>
      rw [processParams, hf] at h
      have h1 : (match dispatchParam M D (q.take pos) (q.drop (pos + 1)) st a l m with
          | Except.error e => Except.error e
          | Except.ok (st4, amount4, label4, message4) =>
            processParams M D rest st4 amount4 label4 message4) =
          Except.ok (st2, a2, l2, m2) := h
      cases hd : dispatchParam M D (q.take pos) (q.drop (pos + 1)) st a l m with
      | error e => rw [hd] at h1; simp at h1
      | ok r =>
        obtain ⟨st3, a3, l3, m3⟩ := r
        rw [hd] at h1
        have h2 : processParams M D rest st3 a3 l3 m3 = Except.ok (st2, a2, l2, m2) := h1
        obtain ⟨ha, hl, hm⟩ := ih st3 a3 l3 m3 st2 a2 l2 m2 h2
        obtain ⟨ea, el, em⟩ := dispatchParam_ok_fields M D _ _ _ _ _ _ _ _ _ _ hd
        exact ⟨lastValue_step keyAmount q rest pos hf M.parse a2 a3 a ha ea,
          lastValue_step keyLabel q rest pos hf Param.decode l2 l3 l hl el,
          lastValue_step keyMessage q rest pos hf Param.decode m2 m3 m hm em⟩

/-- C7: when parsing succeeds, the document's amount is the amount-collaborator parse of
the value of the LAST `amount` pair of the parameter segment (in left-to-right order),
and its label and message are the lazy percent-decoders of the values of the last
`label` and `message` pairs respectively (fields absent when no such pair occurs):
duplicate keys resolve last-write-wins. -/
theorem duplicate_keys_last_write_wins {Addr Amt : Type}
    (A : AddressCollaborator Addr) (M : AmountCollaborator Amt)
    (addrPart params : Str) (u : Uri Addr Amt NoExtras)
    (hascii : ∀ b ∈ addrPart, b < 128) (h63 : (63 : Nat) ∉ addrPart)
    (hok : deserialize_raw A M noExtrasState (SCHEME ++ (addrPart ++ 63 :: params)) =
      PResult.value (Except.ok u)) :
    u.amount = (match lastValueOfKey keyAmount (splitOnByte 38 params) with
                | none => none
                | some v => M.parse v) ∧
    u.label = (match lastValueOfKey keyLabel (splitOnByte 38 params) with
               | none => none
               | some v => Param.decode v) ∧
    u.message = (match lastValueOfKey keyMessage (splitOnByte 38 params) with
                 | none => none
                 | some v => Param.decode v) := by
  rw [deserialize_raw_with_params A M noExtrasState addrPart params hascii,
    deserializeBody_split A M noExtrasState addrPart params h63] at hok
  cases hA : A.parse addrPart with
  | none => rw [hA] at hok; simp at hok
  | some addr =>
    rw [hA] at hok
    cases hpb : processParams M noExtrasState (splitOnByte 38 params)
        noExtrasState.init none none none with
    | error e => rw [hpb] at hok; simp at hok
    | ok r =>
      obtain ⟨st, a, l, m⟩ := r
      rw [hpb] at hok
      have hok2 : PResult.value (Except.ok (⟨addr, a, l, m, ⟨⟩⟩ : Uri Addr Amt NoExtras)) =
          PResult.value (Except.ok u) := hok
      have hu : u = ⟨addr, a, l, m, ⟨⟩⟩ := by
        injection hok2 with h1
        injection h1 with h2
        exact h2.symm
      obtain ⟨ha, hl, hm⟩ := processParams_lastValue M noExtrasState _ _ _ _ _ _ _ _ _ hpb
      rw [hu]
      exact ⟨ha, hl, hm⟩

theorem duplicate_keys_last_write_wins_witness :
    (⟨0, some 2, some ⟨ParamInner.encodedBorrowed [121]⟩, none, ⟨⟩⟩ :
        Uri Nat Nat NoExtras).amount =
      (match lastValueOfKey keyAmount
          (splitOnByte 38 (strBytes "amount=1&amount=2&label=x&label=y")) with
       | none => none
       | some v => toyAmount.parse v) ∧
    (⟨0, some 2, some ⟨ParamInner.encodedBorrowed [121]⟩, none, ⟨⟩⟩ :
        Uri Nat Nat NoExtras).label =
      (match lastValueOfKey keyLabel
          (splitOnByte 38 (strBytes "amount=1&amount=2&label=x&label=y")) with
       | none => none
       | some v => Param.decode v) ∧
    (⟨0, some 2, some ⟨ParamInner.encodedBorrowed [121]⟩, none, ⟨⟩⟩ :
        Uri Nat Nat NoExtras).message =
      (match lastValueOfKey keyMessage
          (splitOnByte 38 (strBytes "amount=1&amount=2&label=x&label=y")) with
       | none => none
       | some v => Param.decode v) :=
  duplicate_keys_last_write_wins toyAddr toyAmount [97]
    (strBytes "amount=1&amount=2&label=x&label=y")
    ⟨0, some 2, some ⟨ParamInner.encodedBorrowed [121]⟩, none, ⟨⟩⟩
    (by decide) (by decide) (by decide)

/-! ### Round-trip machinery for C1 -/

theorem processParams_step_amount {Amt S V E : Type} (M : AmountCollaborator Amt)
    (D : DeserializationState S V E) (x : Amt)
    (hMv : M.parse (percentEncode (M.render x)) = some x)
    (rest : List Str) (st : S) (a : Option Amt) (l m : Option Param) :
    processParams M D ((keyAmount ++ 61 :: DisplayEncoder (M.render x)) :: rest) st a l m =
      processParams M D rest st (some x) l m := by
  rw [processParams_cons_pair M D keyAmount (DisplayEncoder (M.render x)) (by decide),
    dispatchParam_amount M D (DisplayEncoder (M.render x)) st a l m hMv]

theorem Param.decode_DisplayParam (p : Param)
    (hp : percentDecode (percentEncode p.bytes) = some p.bytes) :
    Param.decode (DisplayParam p) =
      some ⟨ParamInner.encodedBorrowed (percentEncode p.bytes)⟩ := by
  unfold Param.decode DisplayParam
  rw [hp]

theorem processParams_step_label {Amt S V E : Type} (M : AmountCollaborator Amt)
    (D : DeserializationState S V E) (p : Param)
    (hp : percentDecode (percentEncode p.bytes) = some p.bytes)
    (rest : List Str) (st : S) (a : Option Amt) (l m : Option Param) :
    processParams M D ((keyLabel ++ 61 :: DisplayParam p) :: rest) st a l m =
      processParams M D rest st a
        (some ⟨ParamInner.encodedBorrowed (percentEncode p.bytes)⟩) m := by
  rw [processParams_cons_pair M D keyLabel (DisplayParam p) (by decide),
    dispatchParam_label M D (DisplayParam p) st a l m (Param.decode_DisplayParam p hp)]

theorem processParams_step_message {Amt S V E : Type} (M : AmountCollaborator Amt)
    (D : DeserializationState S V E) (p : Param)
    (hp : percentDecode (percentEncode p.bytes) = some p.bytes)
    (rest : List Str) (st : S) (a : Option Amt) (l m : Option Param) :
    processParams M D ((keyMessage ++ 61 :: DisplayParam p) :: rest) st a l m =
      processParams M D rest st a l
        (some ⟨ParamInner.encodedBorrowed (percentEncode p.bytes)⟩) := by
  rw [processParams_cons_pair M D keyMessage (DisplayParam p) (by decide),
    dispatchParam_message M D (DisplayParam p) st a l m (Param.decode_DisplayParam p hp)]

theorem append_scheme_assoc (pre rest : Str) :
    strBytes "bitcoin:" ++ pre ++ rest = SCHEME ++ (pre ++ rest) := by
  rw [List.append_assoc]
  rfl

/-- C1: for every document built from an address plus optional amount, label and message
with the empty `NoExtras` extension payload, formatting with `Display` succeeds and
re-parsing the produced text succeeds and reproduces the same address, the same amount,
the same decoded label bytes and the same decoded message bytes.  The hypotheses are the
correctness assumptions on the external collaborators that §1 of the specification
places out of scope: the rendered address is ASCII without `?` and re-parses to itself,
and the rendered amount passes the escape set unchanged and re-parses to itself. -/
theorem uri_roundtrip_noextras {Addr Amt : Type} (A : AddressCollaborator Addr)
    (M : AmountCollaborator Amt) (a : Addr) (amt : Option Amt) (lbl msg : Option Param)
    (hA : A.parse (A.render a) = some a)
    (hAascii : ∀ b ∈ A.render a, b < 128)
    (hAq : (63 : Nat) ∉ A.render a)
    (hM : ∀ x, amt = some x → M.parse (percentEncode (M.render x)) = some x)
    (hlb : ∀ p, lbl = some p → ∀ b ∈ p.bytes, b < 256)
    (hmb : ∀ p, msg = some p → ∀ b ∈ p.bytes, b < 256) :
    ∃ out u,
      formatUri A M noExtrasSer ⟨a, amt, lbl, msg, ⟨⟩⟩ = PResult.value out ∧
      deserialize_raw A M noExtrasState out = PResult.value (Except.ok u) ∧
      u.address = a ∧ u.amount = amt ∧
      u.label.map Param.bytes = lbl.map Param.bytes ∧
      u.message.map Param.bytes = msg.map Param.bytes := by
  have hb : isCharBoundary (SCHEME ++ A.render a) SCHEME.length = true :=
    isCharBoundary_scheme_append (A.render a)
      (fun b hb2 => hAascii b (List.take_subset _ _ hb2))
  rcases amt with _ | x
  · rcases lbl with _ | pl
    · rcases msg with _ | pm
      · -- no parameters at all
        refine ⟨strBytes "bitcoin:" ++ A.render a ++ joinPairs [] true,
          ⟨a, none, none, none, ⟨⟩⟩, rfl, ?_, rfl, rfl, rfl, rfl⟩
        have e0 : strBytes "bitcoin:" ++ A.render a ++ joinPairs [] true =
            SCHEME ++ A.render a := by
          show strBytes "bitcoin:" ++ A.render a ++ [] = SCHEME ++ A.render a
          rw [List.append_nil]
          rfl
        rw [e0, deserialize_raw_scheme A M noExtrasState _ hb,
          deserializeBody_noParams A M noExtrasState _ hAq, hA]
        rfl
      · -- message only
        have hmv := percentDecode_percentEncode (Param.bytes pm) (hmb pm rfl)
        have h38 : ∀ kv ∈ [(keyMessage, DisplayParam pm)], (38 : Nat) ∉ pairStr kv := by
          intro kv hkv
          simp only [List.mem_cons, List.not_mem_nil, or_false] at hkv
          subst hkv
          exact pairStr_no38 keyMessage (Param.bytes pm) (by decide)
        refine ⟨strBytes "bitcoin:" ++ A.render a ++
            joinPairs [(keyMessage, DisplayParam pm)] true,
          ⟨a, none, none,
            some ⟨ParamInner.encodedBorrowed (percentEncode (Param.bytes pm))⟩, ⟨⟩⟩,
          rfl, ?_, rfl, rfl, rfl, ?_⟩
        · rw [joinPairs_cons_true, append_scheme_assoc,
            deserialize_raw_with_params A M noExtrasState _ _ hAascii,
            deserializeBody_split A M noExtrasState _ _ hAq, hA,
            splitOnByte_pairStr_join _ _ h38,
            show List.map pairStr [(keyMessage, DisplayParam pm)] =
              [keyMessage ++ 61 :: DisplayParam pm] from rfl,
            processParams_step_message M noExtrasState pm hmv]
          rfl
        · show some (Param.bytes ⟨ParamInner.encodedBorrowed
              (percentEncode (Param.bytes pm))⟩) = some (Param.bytes pm)
          rw [show Param.bytes ⟨ParamInner.encodedBorrowed
              (percentEncode (Param.bytes pm))⟩ =
            (percentDecode (percentEncode (Param.bytes pm))).getD [] from rfl, hmv]
          rfl
    · rcases msg with _ | pm
      · -- label only
        have hlv := percentDecode_percentEncode (Param.bytes pl) (hlb pl rfl)
        have h38 : ∀ kv ∈ [(keyLabel, DisplayParam pl)], (38 : Nat) ∉ pairStr kv := by
          intro kv hkv
          simp only [List.mem_cons, List.not_mem_nil, or_false] at hkv
          subst hkv
          exact pairStr_no38 keyLabel (Param.bytes pl) (by decide)
        refine ⟨strBytes "bitcoin:" ++ A.render a ++
            joinPairs [(keyLabel, DisplayParam pl)] true,
          ⟨a, none,
            some ⟨ParamInner.encodedBorrowed (percentEncode (Param.bytes pl))⟩,
            none, ⟨⟩⟩,
          rfl, ?_, rfl, rfl, ?_, rfl⟩
        · rw [joinPairs_cons_true, append_scheme_assoc,
            deserialize_raw_with_params A M noExtrasState _ _ hAascii,
            deserializeBody_split A M noExtrasState _ _ hAq, hA,
            splitOnByte_pairStr_join _ _ h38,
            show List.map pairStr [(keyLabel, DisplayParam pl)] =
              [keyLabel ++ 61 :: DisplayParam pl] from rfl,
            processParams_step_label M noExtrasState pl hlv]
          rfl
        · show some (Param.bytes ⟨ParamInner.encodedBorrowed
              (percentEncode (Param.bytes pl))⟩) = some (Param.bytes pl)
          rw [show Param.bytes ⟨ParamInner.encodedBorrowed
              (percentEncode (Param.bytes pl))⟩ =
            (percentDecode (percentEncode (Param.bytes pl))).getD [] from rfl, hlv]
          rfl
      · -- label and message
        have hlv := percentDecode_percentEncode (Param.bytes pl) (hlb pl rfl)
        have hmv := percentDecode_percentEncode (Param.bytes pm) (hmb pm rfl)
        have h38 : ∀ kv ∈ [(keyLabel, DisplayParam pl), (keyMessage, DisplayParam pm)],
            (38 : Nat) ∉ pairStr kv := by
          intro kv hkv
          simp only [List.mem_cons, List.not_mem_nil, or_false] at hkv
          rcases hkv with rfl | rfl
          · exact pairStr_no38 keyLabel (Param.bytes pl) (by decide)
          · exact pairStr_no38 keyMessage (Param.bytes pm) (by decide)
        refine ⟨strBytes "bitcoin:" ++ A.render a ++
            joinPairs [(keyLabel, DisplayParam pl), (keyMessage, DisplayParam pm)] true,
          ⟨a, none,
            some ⟨ParamInner.encodedBorrowed (percentEncode (Param.bytes pl))⟩,
            some ⟨ParamInner.encodedBorrowed (percentEncode (Param.bytes pm))⟩, ⟨⟩⟩,
          rfl, ?_, rfl, rfl, ?_, ?_⟩
        · rw [joinPairs_cons_true, append_scheme_assoc,
            deserialize_raw_with_params A M noExtrasState _ _ hAascii,
            deserializeBody_split A M noExtrasState _ _ hAq, hA,
            splitOnByte_pairStr_join _ _ h38,
            show List.map pairStr
                [(keyLabel, DisplayParam pl), (keyMessage, DisplayParam pm)] =
              [keyLabel ++ 61 :: DisplayParam pl,
                keyMessage ++ 61 :: DisplayParam pm] from rfl,
            processParams_step_label M noExtrasState pl hlv,
            processParams_step_message M noExtrasState pm hmv]
          rfl
        · show some (Param.bytes ⟨ParamInner.encodedBorrowed
              (percentEncode (Param.bytes pl))⟩) = some (Param.bytes pl)
          rw [show Param.bytes ⟨ParamInner.encodedBorrowed
              (percentEncode (Param.bytes pl))⟩ =
            (percentDecode (percentEncode (Param.bytes pl))).getD [] from rfl, hlv]
          rfl
        · show some (Param.bytes ⟨ParamInner.encodedBorrowed
              (percentEncode (Param.bytes pm))⟩) = some (Param.bytes pm)
          rw [show Param.bytes ⟨ParamInner.encodedBorrowed
              (percentEncode (Param.bytes pm))⟩ =
            (percentDecode (percentEncode (Param.bytes pm))).getD [] from rfl, hmv]
          rfl
  · have hMv := hM x rfl
    rcases lbl with _ | pl
    · rcases msg with _ | pm
      · -- amount only
        have h38 : ∀ kv ∈ [(keyAmount, DisplayEncoder (M.render x))],
            (38 : Nat) ∉ pairStr kv := by
          intro kv hkv
          simp only [List.mem_cons, List.not_mem_nil, or_false] at hkv
          subst hkv
          exact pairStr_no38 keyAmount (M.render x) (by decide)
        refine ⟨strBytes "bitcoin:" ++ A.render a ++
            joinPairs [(keyAmount, DisplayEncoder (M.render x))] true,
          ⟨a, some x, none, none, ⟨⟩⟩, rfl, ?_, rfl, rfl, rfl, rfl⟩
        rw [joinPairs_cons_true, append_scheme_assoc,
          deserialize_raw_with_params A M noExtrasState _ _ hAascii,
          deserializeBody_split A M noExtrasState _ _ hAq, hA,
          splitOnByte_pairStr_join _ _ h38,
          show List.map pairStr [(keyAmount, DisplayEncoder (M.render x))] =
            [keyAmount ++ 61 :: DisplayEncoder (M.render x)] from rfl,
          processParams_step_amount M noExtrasState x hMv]
        rfl
      · -- amount and message
        have hmv := percentDecode_percentEncode (Param.bytes pm) (hmb pm rfl)
        have h38 : ∀ kv ∈ [(keyAmount, DisplayEncoder (M.render x)),
            (keyMessage, DisplayParam pm)], (38 : Nat) ∉ pairStr kv := by
          intro kv hkv
          simp only [List.mem_cons, List.not_mem_nil, or_false] at hkv
          rcases hkv with rfl | rfl
          · exact pairStr_no38 keyAmount (M.render x) (by decide)
          · exact pairStr_no38 keyMessage (Param.bytes pm) (by decide)
        refine ⟨strBytes "bitcoin:" ++ A.render a ++
            joinPairs [(keyAmount, DisplayEncoder (M.render x)),
              (keyMessage, DisplayParam pm)] true,
          ⟨a, some x, none,
            some ⟨ParamInner.encodedBorrowed (percentEncode (Param.bytes pm))⟩, ⟨⟩⟩,
          rfl, ?_, rfl, rfl, rfl, ?_⟩
        · rw [joinPairs_cons_true, append_scheme_assoc,
            deserialize_raw_with_params A M noExtrasState _ _ hAascii,
            deserializeBody_split A M noExtrasState _ _ hAq, hA,
            splitOnByte_pairStr_join _ _ h38,
            show List.map pairStr [(keyAmount, DisplayEncoder (M.render x)),
                (keyMessage, DisplayParam pm)] =
              [keyAmount ++ 61 :: DisplayEncoder (M.render x),
                keyMessage ++ 61 :: DisplayParam pm] from rfl,
            processParams_step_amount M noExtrasState x hMv,
            processParams_step_message M noExtrasState pm hmv]
          rfl
        · show some (Param.bytes ⟨ParamInner.encodedBorrowed
              (percentEncode (Param.bytes pm))⟩) = some (Param.bytes pm)
          rw [show Param.bytes ⟨ParamInner.encodedBorrowed
              (percentEncode (Param.bytes pm))⟩ =
            (percentDecode (percentEncode (Param.bytes pm))).getD [] from rfl, hmv]
          rfl
    · rcases msg with _ | pm
      · -- amount and label
        have hlv := percentDecode_percentEncode (Param.bytes pl) (hlb pl rfl)
        have h38 : ∀ kv ∈ [(keyAmount, DisplayEncoder (M.render x)),
            (keyLabel, DisplayParam pl)], (38 : Nat) ∉ pairStr kv := by
          intro kv hkv
          simp only [List.mem_cons, List.not_mem_nil, or_false] at hkv
          rcases hkv with rfl | rfl
          · exact pairStr_no38 keyAmount (M.render x) (by decide)
          · exact pairStr_no38 keyLabel (Param.bytes pl) (by decide)
        refine ⟨strBytes "bitcoin:" ++ A.render a ++
            joinPairs [(keyAmount, DisplayEncoder (M.render x)),
              (keyLabel, DisplayParam pl)] true,
          ⟨a, some x,
            some ⟨ParamInner.encodedBorrowed (percentEncode (Param.bytes pl))⟩,
            none, ⟨⟩⟩,
          rfl, ?_, rfl, rfl, ?_, rfl⟩
        · rw [joinPairs_cons_true, append_scheme_assoc,
            deserialize_raw_with_params A M noExtrasState _ _ hAascii,
            deserializeBody_split A M noExtrasState _ _ hAq, hA,
            splitOnByte_pairStr_join _ _ h38,
            show List.map pairStr [(keyAmount, DisplayEncoder (M.render x)),
                (keyLabel, DisplayParam pl)] =
              [keyAmount ++ 61 :: DisplayEncoder (M.render x),
                keyLabel ++ 61 :: DisplayParam pl] from rfl,
            processParams_step_amount M noExtrasState x hMv,
            processParams_step_label M noExtrasState pl hlv]
          rfl
        · show some (Param.bytes ⟨ParamInner.encodedBorrowed
              (percentEncode (Param.bytes pl))⟩) = some (Param.bytes pl)
          rw [show Param.bytes ⟨ParamInner.encodedBorrowed
              (percentEncode (Param.bytes pl))⟩ =
            (percentDecode (percentEncode (Param.bytes pl))).getD [] from rfl, hlv]
          rfl
      · -- amount, label and message
        have hlv := percentDecode_percentEncode (Param.bytes pl) (hlb pl rfl)
        have hmv := percentDecode_percentEncode (Param.bytes pm) (hmb pm rfl)
        have h38 : ∀ kv ∈ [(keyAmount, DisplayEncoder (M.render x)),
            (keyLabel, DisplayParam pl), (keyMessage, DisplayParam pm)],
            (38 : Nat) ∉ pairStr kv := by
          intro kv hkv
          simp only [List.mem_cons, List.not_mem_nil, or_false] at hkv
          rcases hkv with rfl | rfl | rfl
          · exact pairStr_no38 keyAmount (M.render x) (by decide)
          · exact pairStr_no38 keyLabel (Param.bytes pl) (by decide)
          · exact pairStr_no38 keyMessage (Param.bytes pm) (by decide)
        refine ⟨strBytes "bitcoin:" ++ A.render a ++
            joinPairs [(keyAmount, DisplayEncoder (M.render x)),
              (keyLabel, DisplayParam pl), (keyMessage, DisplayParam pm)] true,
          ⟨a, some x,
            some ⟨ParamInner.encodedBorrowed (percentEncode (Param.bytes pl))⟩,
            some ⟨ParamInner.encodedBorrowed (percentEncode (Param.bytes pm))⟩, ⟨⟩⟩,
          rfl, ?_, rfl, rfl, ?_, ?_⟩
        · rw [joinPairs_cons_true, append_scheme_assoc,
            deserialize_raw_with_params A M noExtrasState _ _ hAascii,
            deserializeBody_split A M noExtrasState _ _ hAq, hA,
            splitOnByte_pairStr_join _ _ h38,
            show List.map pairStr [(keyAmount, DisplayEncoder (M.render x)),
                (keyLabel, DisplayParam pl), (keyMessage, DisplayParam pm)] =
              [keyAmount ++ 61 :: DisplayEncoder (M.render x),
                keyLabel ++ 61 :: DisplayParam pl,
                keyMessage ++ 61 :: DisplayParam pm] from rfl,
            processParams_step_amount M noExtrasState x hMv,
            processParams_step_label M noExtrasState pl hlv,
            processParams_step_message M noExtrasState pm hmv]
          rfl
        · show some (Param.bytes ⟨ParamInner.encodedBorrowed
              (percentEncode (Param.bytes pl))⟩) = some (Param.bytes pl)
          rw [show Param.bytes ⟨ParamInner.encodedBorrowed
              (percentEncode (Param.bytes pl))⟩ =
            (percentDecode (percentEncode (Param.bytes pl))).getD [] from rfl, hlv]
          rfl
        · show some (Param.bytes ⟨ParamInner.encodedBorrowed
              (percentEncode (Param.bytes pm))⟩) = some (Param.bytes pm)
          rw [show Param.bytes ⟨ParamInner.encodedBorrowed
              (percentEncode (Param.bytes pm))⟩ =
            (percentDecode (percentEncode (Param.bytes pm))).getD [] from rfl, hmv]
          rfl

theorem uri_roundtrip_noextras_witness :
    ∃ out u,
      formatUri toyAddr toyAmount noExtrasSer
          ⟨0, some 1, some ⟨ParamInner.unencodedString [120, 32, 121]⟩, none, ⟨⟩⟩ =
        PResult.value out ∧
      deserialize_raw toyAddr toyAmount noExtrasState out = PResult.value (Except.ok u) ∧
      u.address = 0 ∧ u.amount = some 1 ∧
      u.label.map Param.bytes =
        (some (⟨ParamInner.unencodedString [120, 32, 121]⟩ : Param)).map Param.bytes ∧
      u.message.map Param.bytes = (none : Option Param).map Param.bytes :=
  uri_roundtrip_noextras toyAddr toyAmount 0 (some 1)
    (some ⟨ParamInner.unencodedString [120, 32, 121]⟩) none
    (by decide) (by decide) (by decide)
    (fun x hx => by injection hx with e; subst e; decide)
    (fun p hp => by injection hp with e; subst e; decide)
    (fun p hp => by cases hp)

end Bip21
